import Mathlib

/-
  Verification development for the Molecule kernel memory subsystem.

  Shallow embedding of:
  - the bitmap and buddy frame allocator of src/kernel/src/memory/frame.rs
  - the memory-region normalizer of src/kernel/src/memory/memmap.rs
  - the bootstrap allocator of src/kernel/src/memory/bootstrap.rs
  - the page-table walker and mutator of src/kernel/src/arch/x86_64/paging/
  - the address-space constructor of src/kernel/src/arch/x86_64/paging/address_space.rs

  Machine integers (usize, u64) are modelled as Nat; all bit manipulation is
  performed on the low 64 bits only, matching the 64-bit target.  Fallible or
  panicking code paths are modelled with Option or explicit outcome types, a
  `none` or `fatal` value standing for a Rust panic.  Loops are modelled by
  structural recursion; where the Rust loop counts down a fixed range the
  recursion uses an explicit fuel argument that exactly encodes the loop
  bound, so that every definition evaluates by kernel reduction.
-/

namespace Molecule

/-- Alignment helper from src/kernel/src/memory/addr.rs: align_up.  The source
computes `if addr & (align-1) == 0 then addr else (addr | (align-1)) + 1`; for a
power-of-two alignment (the only use) this equals the arithmetic form below. -/
def align_up (addr align : Nat) : Nat :=
  if addr % align = 0 then addr else (addr / align + 1) * align

/-- Alignment helper from src/kernel/src/memory/addr.rs: align_down.  The source
computes `addr & !(align-1)` after asserting align is a power of two; for a
power-of-two alignment this equals the arithmetic form below. -/
def align_down (addr align : Nat) : Nat :=
  addr - addr % align

/-- Rust usize trailing_zeros on a 64-bit word: the least set bit below 64,
or 64 when no bit below 64 is set. -/
def usize_trailing_zeros (w : Nat) : Nat :=
  (((List.range 64).find? (fun k => w.testBit k)).getD 64)

/-- Rust bit_field set_bit on a 64-bit word: set or clear bit b. -/
def usize_set_bit (w b : Nat) (v : Bool) : Nat :=
  if v then w ||| 2 ^ b else w &&& ((2 ^ 64 - 1) ^^^ 2 ^ b)

/-- Bitmap::set from frame.rs.  The word index is idx / 64 and the bit index
idx % 64 (BLOCK_BITS = 64 on the x86_64 target); out-of-range word indices are
a silent no-op because the source goes through Vec::get_mut(..).map. -/
def Bitmap.set (bm : List Nat) (idx : Nat) (v : Bool) : List Nat :=
  bm.set (idx / 64) (usize_set_bit (bm.getD (idx / 64) 0) (idx % 64) v)

/-- Bitmap::is_set from frame.rs.  The source indexes the Vec directly, so an
out-of-range word index panics: modelled as `none`. -/
def Bitmap.is_set (bm : List Nat) (idx : Nat) : Option Bool :=
  (bm[idx / 64]?).map (fun w => w.testBit (idx % 64))

/-- Bitmap::find_first_set from frame.rs: first word with trailing_zeros < 64
contributes word_index * 64 + trailing_zeros. -/
def Bitmap.find_first_set (bm : List Nat) : Option Nat :=
  match bm with
  | [] => none
  | w :: rest =>
    let tz := usize_trailing_zeros w
    if tz < 64 then some tz
    else (Bitmap.find_first_set rest).map (fun n => 64 + n)

/-- Bitmap::calculate_blocks from frame.rs. -/
def calculate_blocks (bits : Nat) : Nat :=
  if bits % 64 = 0 then bits / 64 else bits / 64 + 1

/-- BUDDY_SIZE table from frame.rs: block size in bytes for each of the ten
size classes.  Out-of-range orders (which panic in the source) give 0. -/
def BUDDY_SIZE (i : Nat) : Nat :=
  ([4096, 8192, 16384, 32768, 65536, 131072,
    262144, 524288, 1048576, 2097152] : List Nat).getD i 0

/-- BuddyFrameAllocator state from frame.rs.  The end bound field is named
end_addr because `end` is a Lean keyword. -/
structure BuddyFrameAllocator where
  buddies : List (List Nat)
  free : List Nat
  base : Nat
  end_addr : Nat
  size : Nat
deriving DecidableEq

/-- BuddyFrameAllocator::get_bit_idx. -/
def get_bit_idx (a : BuddyFrameAllocator) (addr order : Nat) : Nat :=
  (addr - a.base) / BUDDY_SIZE order

/-- BuddyFrameAllocator::set_bit: returns whether the bit changed, together
with the updated allocator.  `none` models the panic of an out-of-range
bitmap read inside is_set. -/
def set_bit (a : BuddyFrameAllocator) (addr order : Nat) :
    Option (Bool × BuddyFrameAllocator) :=
  let idx := get_bit_idx a addr order
  let bm := a.buddies.getD order []
  match Bitmap.is_set bm idx with
  | none => none
  | some b =>
    if !b then
      some (true,
        { a with
          buddies := a.buddies.set order (Bitmap.set bm idx true),
          free := a.free.set order (a.free.getD order 0 + 1) })
    else
      some (false, a)

/-- BuddyFrameAllocator::clear_bit: returns whether the bit changed, together
with the updated allocator. -/
def clear_bit (a : BuddyFrameAllocator) (addr order : Nat) :
    Option (Bool × BuddyFrameAllocator) :=
  let idx := get_bit_idx a addr order
  let bm := a.buddies.getD order []
  match Bitmap.is_set bm idx with
  | none => none
  | some b =>
    if b then
      some (true,
        { a with
          buddies := a.buddies.set order (Bitmap.set bm idx false),
          free := a.free.set order (a.free.getD order 0 - 1) })
    else
      some (false, a)

/-- BuddyFrameAllocator::find_free: clear the first set bit of the bitmap of
the given order and return the corresponding address.  A `none` from
find_first_set propagates like the source ? operator. -/
def find_free (a : BuddyFrameAllocator) (order : Nat) :
    Option (Nat × BuddyFrameAllocator) :=
  let bm := a.buddies.getD order []
  (Bitmap.find_first_set bm).map (fun first_free =>
    (align_up a.base (BUDDY_SIZE order) + BUDDY_SIZE order * first_free,
     { a with
       buddies := a.buddies.set order (Bitmap.set bm first_free false),
       free := a.free.set order (a.free.getD order 0 - 1) }))

/-- BuddyFrameAllocator::get_buddy. -/
def get_buddy (addr order : Nat) : Nat :=
  let size := BUDDY_SIZE order
  let base := align_down addr (size * 2)
  if base = addr then addr + size else base

/-- Inner while loop of the split phase of allocate_frame:
`while remaining >= b { set_bit(result + (remaining - b), j); remaining -= size; }`.
The fuel argument is remaining + 1 at the outer call, which is enough for any
positive step size; a zero step size (impossible for the orders the source
uses, and a diverging loop in Rust) gives `none`. -/
def split_while_go (result j b size : Nat) :
    Nat → BuddyFrameAllocator → Nat → Option (BuddyFrameAllocator × Nat)
  | 0, _, _ => none
  | fuel + 1, a, remaining =>
    if b ≤ remaining then
      if size = 0 ∨ b = 0 then none
      else
        match set_bit a (result + (remaining - b)) j with
        | none => none
        | some (_, a2) => split_while_go result j b size fuel a2 (remaining - size)
    else some (a, remaining)

/-- Outer for loop of the split phase of allocate_frame:
`for j in (0..=i).rev()`, running the inner while loop at each class j. -/
def split_for (size : Nat) :
    Nat → BuddyFrameAllocator → Nat → Nat → Option (BuddyFrameAllocator × Nat)
  | 0, a, result, remaining =>
    split_while_go result 0 (BUDDY_SIZE 0) size (remaining + 1) a remaining
  | j + 1, a, result, remaining =>
    match split_while_go result (j + 1) (BUDDY_SIZE (j + 1)) size (remaining + 1)
        a remaining with
    | none => none
    | some (a2, rem2) => split_for size j a2 result rem2

/-- Scan loop of BuddyFrameAllocator::allocate_frame over classes i = order..9.
The fuel argument is 10 - i, exactly encoding the remaining iterations.  The
inner value is the Option the Rust function returns (None = out of memory);
the outer Option models panics. -/
def alloc_go (order size : Nat) :
    Nat → Nat → BuddyFrameAllocator → Option (Option Nat × BuddyFrameAllocator)
  | _, 0, a => some (none, a)
  | i, fuel + 1, a =>
    if 0 < a.free.getD i 0 then
      match find_free a i with
      | none => some (none, a)
      | some (result, a1) =>
        let remaining := BUDDY_SIZE i - size
        if 0 < remaining then
          match split_for size i a1 result remaining with
          | none => none
          | some (a2, _) => some (some result, a2)
        else some (some result, a1)
    else alloc_go order size (i + 1) fuel a

/-- BuddyFrameAllocator::allocate_frame.  An order of 10 or more panics in the
source on the BUDDY_SIZE index. -/
def allocate_frame (a : BuddyFrameAllocator) (order : Nat) :
    Option (Option Nat × BuddyFrameAllocator) :=
  if order < 10 then alloc_go order (BUDDY_SIZE order) order (10 - order) a
  else none

/-- Loop body of BuddyFrameAllocator::deallocate_frame:
`while order < 10`, coalescing with the buddy when its bit is set, otherwise
setting the bit of addr and stopping; at the top order just set the bit.  The
fuel argument is 10 - order, exactly encoding the loop guard. -/
def deallocate_go : Nat → BuddyFrameAllocator → Nat → Nat → Option BuddyFrameAllocator
  | 0, a, _, _ => some a
  | fuel + 1, a, addr, order =>
    if order < 9 then
      let buddy := get_buddy addr order
      match clear_bit a buddy order with
      | none => none
      | some (true, a2) => deallocate_go fuel a2 (min addr buddy) (order + 1)
      | some (false, a2) =>
        match set_bit a2 addr order with
        | none => none
        | some (_, a3) => some a3
    else
      match set_bit a addr order with
      | none => none
      | some (_, a3) => some a3

/-- BuddyFrameAllocator::deallocate_frame. -/
def deallocate_frame (a : BuddyFrameAllocator) (addr order : Nat) :
    Option BuddyFrameAllocator :=
  deallocate_go (10 - order) a addr order

/-- Countdown loop of BuddyFrameAllocator::find_order:
`for order in (0..10).rev()`, returning the first order whose block size fits
in chunk_size and divides addr; falling out of the loop returns 0, which
coincides with the order-0 case of the match. -/
def find_order_go (addr chunk_size : Nat) : Nat → Nat
  | 0 => 0
  | order + 1 =>
    if BUDDY_SIZE (order + 1) ≤ chunk_size ∧ addr % BUDDY_SIZE (order + 1) = 0
    then order + 1
    else find_order_go addr chunk_size order

/-- BuddyFrameAllocator::find_order. -/
def find_order (addr chunk_size : Nat) : Nat :=
  find_order_go addr chunk_size 9

/-- Loop of BuddyFrameAllocator::insert_range: repeatedly set the bit of the
largest aligned block that fits.  The fuel argument is remaining + 1, enough
because every order the source selects has a block size of at least 4096. -/
def insert_range_go : Nat → BuddyFrameAllocator → Nat → Nat → Option BuddyFrameAllocator
  | 0, _, _, _ => none
  | fuel + 1, a, current, remaining =>
    if 0 < remaining then
      let order := find_order current remaining
      match set_bit a current order with
      | none => none
      | some (_, a2) =>
        insert_range_go fuel a2 (current + BUDDY_SIZE order)
          (remaining - BUDDY_SIZE order)
    else some a

/-- BuddyFrameAllocator::insert_range. -/
def insert_range (a : BuddyFrameAllocator) (base end_addr : Nat) :
    Option BuddyFrameAllocator :=
  insert_range_go (end_addr - base + 1) a base (end_addr - base)

/-- BuddyFrameAllocator state as BuddyFrameAllocator::new builds it before
inserting the free regions: one all-zero bitmap per class, sized to
(end - base) / BUDDY_SIZE[i] bits, zero free counts.  The size accounting
field of new (total free bytes, used only for logging and total_memory) is
not tracked here. -/
def empty_allocator (base end_addr : Nat) : BuddyFrameAllocator :=
  { buddies :=
      (List.range 10).map
        (fun i => List.replicate (calculate_blocks ((end_addr - base) / BUDDY_SIZE i)) 0),
    free := List.replicate 10 0,
    base := base,
    end_addr := end_addr,
    size := 0 }

/-- Allocator over a single free 8 KiB range [0, 0x2000), as
BuddyFrameAllocator::new produces for a memory map whose normalized free
regions are exactly that range: empty bitmaps plus insert_range. -/
def mk8 : Option BuddyFrameAllocator :=
  insert_range (empty_allocator 0 8192) 0 8192

/-! Memory-region normalizer, src/kernel/src/memory/memmap.rs. -/

/-- Limine EntryType::USABLE. -/
def USABLE : Nat := 0

/-- Raw firmware memory-map entry as provided by Limine. -/
structure LimineEntry where
  base : Nat
  length : Nat
  entry_type : Nat
deriving DecidableEq

/-- MemoryRegionType from memmap.rs (only Free exists). -/
inductive MemoryRegionType where
  | Free : MemoryRegionType
deriving DecidableEq

/-- MemoryRegion from memmap.rs. -/
structure MemoryRegion where
  base : Nat
  size : Nat
  region_type : MemoryRegionType
deriving DecidableEq

/-- State of MemoryRegionIter: the remaining entries and the cursor pair. -/
structure MemoryRegionIterState where
  iter : List LimineEntry
  cursor_base : Nat
  cursor_end : Nat
deriving DecidableEq

/-- Inner loop of MemoryRegionIter::next: skip entries until a USABLE one. -/
def first_usable : List LimineEntry → Option (LimineEntry × List LimineEntry)
  | [] => none
  | e :: rest =>
    if e.entry_type = USABLE then some (e, rest) else first_usable rest

/-- MemoryRegionIter::next.  When the cursor is exhausted, advance to the next
USABLE entry, setting cursor_base to its base aligned up to 4096 and
cursor_end to base + length; then yield [cursor_base, cursor_end) as a region
and move cursor_base to align_up(cursor_end).  The size subtraction is a Rust
usize subtraction, which for a USABLE entry shorter than its alignment slack
would underflow (a debug panic); Nat subtraction truncates that unreachable
case to zero. -/
def region_iter_next (s : MemoryRegionIterState) :
    Option (MemoryRegion × MemoryRegionIterState) :=
  if s.cursor_end ≤ s.cursor_base then
    match first_usable s.iter with
    | none => none
    | some (e, rest) =>
      let cb := align_up e.base 4096
      let ce := e.base + e.length
      some (⟨cb, ce - cb, MemoryRegionType.Free⟩,
            ⟨rest, align_up ce 4096, ce⟩)
  else
    some (⟨s.cursor_base, s.cursor_end - s.cursor_base, MemoryRegionType.Free⟩,
          ⟨s.iter, align_up s.cursor_end 4096, s.cursor_end⟩)

/-- Lazy sequence of regions produced by repeatedly calling next, cut off by
fuel (the normalizer yields at most one region per entry, so any fuel at least
the entry count is enough). -/
def region_iter_yields : Nat → MemoryRegionIterState → List MemoryRegion
  | 0, _ => []
  | fuel + 1, s =>
    match region_iter_next s with
    | none => []
    | some (r, s2) => r :: region_iter_yields fuel s2

/-! Bootstrap allocator, src/kernel/src/memory/bootstrap.rs. -/

/-- Scan loop of BootstrapAlloc::allocate: first region whose size is at least
the (already rounded) request wins; its base is advanced and its size shrunk
in place; the returned pointer is the HHDM translation of the old base. -/
def bootstrap_alloc_go (hhdm size : Nat) :
    List MemoryRegion → Option (Nat × List MemoryRegion)
  | [] => none
  | r :: rest =>
    if size ≤ r.size then
      some (r.base + hhdm,
            ⟨r.base + size, r.size - size, r.region_type⟩ :: rest)
    else
      (bootstrap_alloc_go hhdm size rest).map (fun p => (p.1, r :: p.2))

/-- BootstrapAlloc::allocate: round the request up to 4096 and run the scan.
The `none` result models the unreachable!() panic when no region fits. -/
def bootstrap_allocate (hhdm : Nat) (ranges : List MemoryRegion) (size : Nat) :
    Option (Nat × List MemoryRegion) :=
  bootstrap_alloc_go hhdm (align_up size 4096) ranges

/-! Page tables, src/kernel/src/arch/x86_64/paging/. -/

/-- PageTableEntry::ADDR_MASK. -/
def ADDR_MASK : Nat := 0x000FFFFFFFFFF000

/-- PageTableEntry::FLAGS_MASK. -/
def FLAGS_MASK : Nat := 0x80000000000001FF

/-- Bitwise complement on a 64-bit word. -/
def not64 (m : Nat) : Nat := (2 ^ 64 - 1) ^^^ m

/-- VirtAddr::p4_index: `(v >> 39) as u16 % 512`. -/
def p4_index (v : Nat) : Nat := ((v >>> 39) % 65536) % 512

/-- VirtAddr::p3_index: `(v >> 30) as u16 % 512`. -/
def p3_index (v : Nat) : Nat := ((v >>> 30) % 65536) % 512

/-- VirtAddr::p2_index: `(v >> 21) as u16 % 512`. -/
def p2_index (v : Nat) : Nat := ((v >>> 21) % 65536) % 512

/-- VirtAddr::p1_index: `(v >> 12) as u16 % 512`. -/
def p1_index (v : Nat) : Nat := ((v >>> 12) % 65536) % 512

/-- VirtAddr::page_index: `v as u16 % 4096`. -/
def page_index (v : Nat) : Nat := (v % 65536) % 4096

/-- Physical memory as seen through the HHDM window, restricted to page-table
frames: the value of entry i of the page table stored in the 4 KiB frame at
physical address t.  All page-table frames the kernel touches are 4096-aligned,
so keying by the frame base address is faithful. -/
def Memory : Type := Nat → Nat → Nat

/-- Store to one page-table entry. -/
def Memory.write (m : Memory) (t i v : Nat) : Memory :=
  fun t2 i2 => if t2 = t ∧ i2 = i then v else m t2 i2

/-- PageTable::zero of the table in frame t. -/
def Memory.zero_table (m : Memory) (t : Nat) : Memory :=
  fun t2 i2 => if t2 = t then 0 else m t2 i2

/-- Frame::containing_addr for 4 KiB frames. -/
def frame_containing (addr : Nat) : Nat := align_down addr 4096

/-- PageTableEntry::addr. -/
def entry_addr (e : Nat) : Nat := e &&& ADDR_MASK

/-- FrameError from frame.rs. -/
inductive FrameErr where
  | FrameNotPresent : FrameErr
  | HugePageNotSupported : FrameErr
deriving DecidableEq

/-- PageTableEntry::frame: PRESENT is bit 0, HUGE_PAGE is bit 7. -/
def entry_frame (e : Nat) : Except FrameErr Nat :=
  if !(e.testBit 0) then Except.error FrameErr.FrameNotPresent
  else if e.testBit 7 then Except.error FrameErr.HugePageNotSupported
  else Except.ok (frame_containing (entry_addr e))

/-- PageTableEntry::set_flags. -/
def entry_set_flags (e flags : Nat) : Nat :=
  (e &&& not64 FLAGS_MASK) ||| flags

/-- PageTableEntry::set_addr; the assert that addr is 4096-aligned is
modelled by `none` (panic) on an unaligned address. -/
def entry_set_addr (e addr flags : Nat) : Option Nat :=
  if addr % 4096 = 0 then
    some (entry_set_flags ((e &&& not64 ADDR_MASK) ||| addr) flags)
  else none

/-- PageTableEntry::set_frame; the assert that flags does not contain
HUGE_PAGE is modelled by `none` on a set bit 7. -/
def entry_set_frame (e frame flags : Nat) : Option Nat :=
  if flags.testBit 7 then none else entry_set_addr e frame flags

/-- Result of translate_addr: the walker either returns an address, returns
no translation, or dies on the level assertion for a huge entry above the
last-before-leaf level. -/
inductive TranslateResult where
  | fatal : TranslateResult
  | unmapped : TranslateResult
  | mapped : Nat → TranslateResult
deriving DecidableEq

/-- Level loop of PageMap::translate_addr over (level, index) pairs, exactly
the order produced by indicies.iter().enumerate().rev(): a not-present entry
returns None; a huge entry returns addr + p1_index + page_index when level is
1 and trips the assert otherwise; a normal entry continues into its frame. -/
def translate_walk (m : Memory) (v : Nat) :
    List (Nat × Nat) → Nat → TranslateResult
  | [], frame => TranslateResult.mapped (frame + page_index v)
  | (level, index) :: rest, frame =>
    let e := m frame index
    match entry_frame e with
    | Except.ok f => translate_walk m v rest f
    | Except.error FrameErr.FrameNotPresent => TranslateResult.unmapped
    | Except.error FrameErr.HugePageNotSupported =>
      if level = 1 then
        TranslateResult.mapped (entry_addr e + p1_index v + page_index v)
      else TranslateResult.fatal

/-- PageMap::translate_addr with root pml4. -/
def translate_addr (m : Memory) (pml4 v : Nat) : TranslateResult :=
  translate_walk m v
    [(3, p4_index v), (2, p3_index v), (1, p2_index v), (0, p1_index v)]
    (frame_containing pml4)

/-- MapError from memory/mod.rs. -/
inductive MapErr where
  | AllocationFailed : MapErr
  | PageAlreadyMapped : Nat → MapErr
deriving DecidableEq

/-- Outcome of the intermediate-level walk of map_page.  The visited field of
ok is ghost instrumentation: it records the page-table frames traversed, the
starting table first, ending with the table the walk returns; it does not
feed back into any computation. -/
inductive MapWalkOut where
  | fatal : MapWalkOut
  | failed : Memory → List Nat → MapWalkOut
  | ok : Memory → Nat → List Nat → List Nat → MapWalkOut

/-- Intermediate-level loop of PageMap::map_page over the p4/p3/p2 indices.
At each level: an unused (zero) entry takes a frame from the allocator (the
alloc list; an empty list is MapError::AllocationFailed), stores it with
PRESENT | WRITEABLE | USER_ACCESSIBLE (= 7) and zeroes the new table at
entry.addr(); then the walk continues into entry.addr(). -/
def map_walk (m : Memory) (t : Nat) (alloc : List Nat) :
    List Nat → MapWalkOut
  | [] => MapWalkOut.ok m t alloc [t]
  | index :: rest =>
    let e := m t index
    if e = 0 then
      match alloc with
      | [] => MapWalkOut.failed m alloc
      | fr :: alloc2 =>
        match entry_set_frame e (frame_containing fr) 7 with
        | none => MapWalkOut.fatal
        | some e2 =>
          let m1 := (m.write t index e2).zero_table (entry_addr e2)
          match map_walk m1 (entry_addr e2) alloc2 rest with
          | MapWalkOut.ok m2 t2 a2 vis => MapWalkOut.ok m2 t2 a2 (t :: vis)
          | out => out
    else
      match map_walk m (entry_addr e) alloc rest with
      | MapWalkOut.ok m2 t2 a2 vis => MapWalkOut.ok m2 t2 a2 (t :: vis)
      | out => out

/-- Outcome of map_page: fatal models a panic (a failed assert or unwrap),
error and ok carry the resulting memory and the unconsumed allocator list. -/
inductive MapOutcome where
  | fatal : MapOutcome
  | error : MapErr → Memory → List Nat → MapOutcome
  | ok : Nat → Memory → List Nat → MapOutcome

/-- PageMap::map_page for the page starting at v and the frame starting at
frame, with the given flags.  At the p1 level a non-zero entry returns
PageAlreadyMapped carrying entry.frame().unwrap() — the unwrap panics when
that entry is not PRESENT or is HUGE.  On the empty path the entry is set and
the function returns Ok(entry.frame().unwrap()), which likewise panics when
the flags do not contain PRESENT.  The TLB invalidation has no effect on the
memory model. -/
def map_page (m : Memory) (pml4 v frame flags : Nat) (alloc : List Nat) :
    MapOutcome :=
  match map_walk m pml4 alloc [p4_index v, p3_index v, p2_index v] with
  | MapWalkOut.fatal => MapOutcome.fatal
  | MapWalkOut.failed m2 a2 => MapOutcome.error MapErr.AllocationFailed m2 a2
  | MapWalkOut.ok m2 t a2 _ =>
    let e := m2 t (p1_index v)
    if e = 0 then
      match entry_set_frame e frame flags with
      | none => MapOutcome.fatal
      | some e2 =>
        let m3 := m2.write t (p1_index v) e2
        match entry_frame e2 with
        | Except.ok fr => MapOutcome.ok fr m3 a2
        | Except.error _ => MapOutcome.fatal
    else
      match entry_frame e with
      | Except.ok fr => MapOutcome.error (MapErr.PageAlreadyMapped fr) m2 a2
      | Except.error _ => MapOutcome.fatal

/-- Visited page-table frames of the intermediate walk of map_page, used to
state freshness hypotheses: [t4, t3, t2, t1] on success, [] otherwise. -/
def map_visited (m : Memory) (pml4 v : Nat) (alloc : List Nat) : List Nat :=
  match map_walk m pml4 alloc [p4_index v, p3_index v, p2_index v] with
  | MapWalkOut.ok _ _ _ vis => vis
  | _ => []

/-- Environment assumption for the intermediate walk: every already-present
entry met on the path (the else branch of the is_unused test in map_page) is
PRESENT and not HUGE.  Entries created by map_page itself always are, so this
only constrains tables that existed before the call; a page-table tree built
by map_page alone satisfies it. -/
def walk_wf (m : Memory) (t : Nat) (alloc : List Nat) : List Nat → Prop
  | [] => True
  | index :: rest =>
    let e := m t index
    if e = 0 then
      match alloc with
      | [] => True
      | fr :: alloc2 =>
        match entry_set_frame e (frame_containing fr) 7 with
        | none => True
        | some e2 =>
          walk_wf ((m.write t index e2).zero_table (entry_addr e2))
            (entry_addr e2) alloc2 rest
    else
      e.testBit 0 = true ∧ e.testBit 7 = false ∧
      walk_wf m (entry_addr e) alloc rest

/-- Chain of table frames followed by unmap_page: at each index the walk
moves to entry.addr() with no presence check. -/
def walk_chain (m : Memory) (t : Nat) : List Nat → Nat
  | [] => t
  | index :: rest => walk_chain m (entry_addr (m t index)) rest

/-- UnmapError from memory/mod.rs. -/
inductive UnmapErr where
  | ParentEntryHugePage : UnmapErr
  | PageNotMapped : UnmapErr
deriving DecidableEq

/-- Outcome of unmap_page. -/
inductive UnmapOutcome where
  | error : UnmapErr → Memory → UnmapOutcome
  | ok : Nat → Memory → UnmapOutcome

/-- PageMap::unmap_page: walk p4/p3/p2 through entry.addr() without checks,
then clear the p1 entry, mapping the frame() errors of an absent or huge leaf
entry to UnmapError. -/
def unmap_page (m : Memory) (pml4 v : Nat) : UnmapOutcome :=
  let t1 := walk_chain m pml4 [p4_index v, p3_index v, p2_index v]
  let e := m t1 (p1_index v)
  match entry_frame e with
  | Except.error FrameErr.FrameNotPresent =>
    UnmapOutcome.error UnmapErr.PageNotMapped m
  | Except.error FrameErr.HugePageNotSupported =>
    UnmapOutcome.error UnmapErr.ParentEntryHugePage m
  | Except.ok fr => UnmapOutcome.ok fr (m.write t1 (p1_index v) 0)

/-- AddressSpace::new from address_space.rs: take a fresh frame fr from the
frame allocator (none = AllocationFailed), zero entries 0..256 of the new L4
table and copy entries 256..512 from the L4 table of the active cr3.  The two
loops write disjoint cells of the new table, so their closed forms below are
exact even when the new frame aliases the active root. -/
def address_space_new (m : Memory) (active_cr3 : Nat) (alloc : Option Nat) :
    Option (Nat × Memory) :=
  match alloc with
  | none => none
  | some fr =>
    let f := frame_containing fr
    let m1 : Memory := fun t i => if t = f ∧ i < 256 then 0 else m t i
    let m2 : Memory := fun t i =>
      if t = f ∧ 256 ≤ i ∧ i < 512 then m1 active_cr3 i else m1 t i
    some (f, m2)

/-! Helper lemmas about 64-bit words and bitmaps. -/

lemma usize_set_bit_testBit_self (w b : Nat) (v : Bool) (hb : b < 64) :
    (usize_set_bit w b v).testBit b = v := by
  unfold usize_set_bit
  cases v with
  | true =>
    rw [if_pos rfl, Nat.testBit_or, Nat.testBit_two_pow]
    simp
  | false =>
    rw [if_neg (by simp), Nat.testBit_and, Nat.testBit_xor,
      Nat.testBit_two_pow_sub_one, Nat.testBit_two_pow]
    simp [hb]

lemma usize_set_bit_testBit_ne (w b k : Nat) (v : Bool) (hk : k < 64)
    (hne : k ≠ b) : (usize_set_bit w b v).testBit k = w.testBit k := by
  unfold usize_set_bit
  cases v with
  | true =>
    rw [if_pos rfl, Nat.testBit_or, Nat.testBit_two_pow]
    simp [(Ne.symm hne : b ≠ k)]
  | false =>
    rw [if_neg (by simp), Nat.testBit_and, Nat.testBit_xor,
      Nat.testBit_two_pow_sub_one, Nat.testBit_two_pow]
    simp [hk, (Ne.symm hne : b ≠ k)]

lemma BUDDY_SIZE_pos : ∀ i, i < 10 → 0 < BUDDY_SIZE i := by decide

/-- C10.  Implicit bitmap out-of-range asymmetry: for every index whose word
index is at or beyond the capacity of the bitmap, Bitmap::set returns normally
and leaves the bitmap unchanged (silent no-op through Option::map on get_mut)
while Bitmap::is_set on the same index hits an out-of-bounds slice access
(modelled as none); for every in-range index, set changes only that bit. -/
theorem bitmap_oob_asymmetry (bm : List Nat) (idx : Nat) (v : Bool) :
    (bm.length ≤ idx / 64 →
       Bitmap.set bm idx v = bm ∧ Bitmap.is_set bm idx = none) ∧
    (idx / 64 < bm.length →
       Bitmap.is_set (Bitmap.set bm idx v) idx = some v ∧
       ∀ j, j ≠ idx →
         Bitmap.is_set (Bitmap.set bm idx v) j = Bitmap.is_set bm j) := by
  constructor
  · intro h
    constructor
    · exact List.set_eq_of_length_le h
    · unfold Bitmap.is_set
      rw [List.getElem?_eq_none h]
      rfl
  · intro h
    have hmlt : idx % 64 < 64 := Nat.mod_lt _ (by omega)
    constructor
    · unfold Bitmap.is_set Bitmap.set
      rw [List.getElem?_set_self h]
      simp [usize_set_bit_testBit_self _ _ _ hmlt]
    · intro j hj
      by_cases hw : j / 64 = idx / 64
      · unfold Bitmap.is_set Bitmap.set
        rw [hw, List.getElem?_set_self h]
        rcases hg : bm[idx / 64]? with _ | w
        · rw [List.getElem?_eq_none_iff] at hg
          omega
        · have hgd : bm.getD (idx / 64) 0 = w := by
            rw [List.getD_eq_getElem?_getD, hg]
            rfl
          have hb : j % 64 ≠ idx % 64 := by omega
          simp [hg, hgd,
            usize_set_bit_testBit_ne _ _ _ _ (Nat.mod_lt _ (by omega)) hb]
      · unfold Bitmap.is_set Bitmap.set
        rw [List.getElem?_set_ne (fun hh => hw hh.symm)]

/-- C10 witness at concrete inputs. -/
theorem bitmap_oob_asymmetry_witness :
    (Bitmap.set [0] 100 true = [0] ∧ Bitmap.is_set [0] 100 = none) ∧
    Bitmap.is_set (Bitmap.set [0] 3 true) 3 = some true ∧
    Bitmap.is_set (Bitmap.set [0] 3 true) 7 = Bitmap.is_set [0] 7 := by
  refine ⟨(bitmap_oob_asymmetry [0] 100 true).1 (by decide), ?_, ?_⟩
  · exact ((bitmap_oob_asymmetry [0] 3 true).2 (by decide)).1
  · exact ((bitmap_oob_asymmetry [0] 3 true).2 (by decide)).2 7 (by decide)

/-- C1.  The claim (no two live allocations overlap; two successive order-0
allocations return disjoint 4 KiB ranges) fails on the code: starting from the
allocator freshly constructed over a single free 8 KiB range at base 0, two
successive order-0 allocations both return address 0, i.e. the identical 4 KiB
range.  The cause is the split phase of allocate_frame, which marks the
returned block itself as free (see the C2 theorem), violating the safety
contract stated on the FrameAllocator trait. -/
theorem buddy_overlap_bug :
    (mk8.bind fun a0 =>
      (allocate_frame a0 0).bind fun p =>
        (allocate_frame p.2 0).map fun q => (p.1, q.1)) =
    some (some 0, some 0) := by decide

/-- C2.  The claim (after a split, the byte range above the returned block is
marked free and no part of the returned range is marked free) fails on the
code: allocating order 0 from the fresh 8 KiB allocator (found class i = 1)
returns address 0 but leaves the order-0 bitmap with bit 0 set (the returned
range [0, 0x1000) marked free) and bit 1 clear (the upper half
[0x1000, 0x2000) not marked free at any class: the order-1 bit is clear too).
The slip in the source is `remaining -= size` with the requested size instead
of the class size b, combined with the address `result + (remaining - b)`. -/
theorem buddy_split_bug :
    (mk8.bind fun a0 =>
      (allocate_frame a0 0).map fun p =>
        (p.1, Bitmap.is_set (p.2.buddies.getD 0 []) 0,
         Bitmap.is_set (p.2.buddies.getD 0 []) 1,
         Bitmap.is_set (p.2.buddies.getD 1 []) 0)) =
    some (some 0, some true, some false, some false) := by decide

/-- Page-table tree with a huge 2 MiB mapping: the root table at frame 0 has
entry 0 pointing (PRESENT) at the p3 table in frame 0x1000, whose entry 0
points (PRESENT) at the p2 table in frame 0x2000, whose entry 0 is
PRESENT | HUGE_PAGE with frame address 0x200000. -/
def huge_mem : Memory := fun t i =>
  if t = 0 ∧ i = 0 then 4097
  else if t = 4096 ∧ i = 0 then 8193
  else if t = 8192 ∧ i = 0 then 2097281
  else 0

/-- Page-table tree with a huge entry one level too high: the root table at
frame 0 points at the p3 table in frame 0x1000 whose entry 0 is
PRESENT | HUGE_PAGE. -/
def huge_mem3 : Memory := fun t i =>
  if t = 0 ∧ i = 0 then 4097
  else if t = 4096 ∧ i = 0 then 2097281
  else 0

/-- C6.  The claim says a huge entry met at the last-before-leaf level yields
the huge frame address plus p1_index * 4096 + page offset.  The code instead
adds the raw p1_index without the shift: translating virtual address 0x1000
through a 2 MiB huge mapping at frame 0x200000 returns 0x200000 + 1 = 0x200001
rather than 0x200000 + 0x1000 = 0x201000.  The assertion part of the claim
does hold: a present huge entry above that level is a fatal assertion
failure. -/
theorem huge_translate_bug :
    translate_addr huge_mem 0 4096 = TranslateResult.mapped 2097153 ∧
    translate_addr huge_mem 0 4096 ≠ TranslateResult.mapped 2101248 ∧
    translate_addr huge_mem3 0 0 = TranslateResult.fatal := by decide

/-- C3.  Buddy coalescing, in the order of the claim: (1) get_buddy computes
the other half of the aligned pair of size 2 * BUDDY_SIZE[o] containing addr;
(2) for o below the top order, deallocate_frame clears the buddy bit and
recurses one order up with the lower of the two addresses when the buddy bit
was set, and otherwise sets the bit of addr and stops; (3) at the top order it
sets the bit of addr and stops; (4) starting from the fully-allocated 8 KiB
allocator, deallocating both order-0 halves lets a subsequent order-1
allocation of the pair block succeed (returning its base 0), while (5)
deallocating only one half leaves order-1 allocation returning None. -/
theorem buddy_coalescing :
    (∀ addr order, order < 9 → addr % BUDDY_SIZE order = 0 →
       (addr % (BUDDY_SIZE order * 2) = 0 →
          get_buddy addr order = addr + BUDDY_SIZE order) ∧
       (addr % (BUDDY_SIZE order * 2) ≠ 0 →
          get_buddy addr order = addr - BUDDY_SIZE order)) ∧
    (∀ (a : BuddyFrameAllocator) (addr order : Nat), order < 9 →
       deallocate_frame a addr order =
         match clear_bit a (get_buddy addr order) order with
         | none => none
         | some (true, a2) =>
             deallocate_frame a2 (min addr (get_buddy addr order)) (order + 1)
         | some (false, a2) => (set_bit a2 addr order).map Prod.snd) ∧
    (∀ (a : BuddyFrameAllocator) (addr : Nat),
       deallocate_frame a addr 9 = (set_bit a addr 9).map Prod.snd) ∧
    (((deallocate_frame (empty_allocator 0 8192) 0 0).bind fun s1 =>
        (deallocate_frame s1 4096 0).bind fun s2 =>
          (allocate_frame s2 1).map fun p => p.1) = some (some 0)) ∧
    (((deallocate_frame (empty_allocator 0 8192) 0 0).bind fun s1 =>
        (allocate_frame s1 1).map fun p => p.1) = some none) := by
  refine ⟨?_, ?_, ?_, by decide, by decide⟩
  · intro addr order ho hal
    have hpos : 0 < BUDDY_SIZE order := BUDDY_SIZE_pos order (by omega)
    constructor
    · intro h2
      simp only [get_buddy, align_down]
      rw [h2]
      simp
    · intro h2
      have hdvd : BUDDY_SIZE order ∣ addr % (BUDDY_SIZE order * 2) := by
        have := Nat.mod_mod_of_dvd addr (⟨2, rfl⟩ : BUDDY_SIZE order ∣ BUDDY_SIZE order * 2)
        exact Nat.dvd_of_mod_eq_zero (by rw [this, hal])
      obtain ⟨k, hk⟩ := hdvd
      have hlt : addr % (BUDDY_SIZE order * 2) < BUDDY_SIZE order * 2 :=
        Nat.mod_lt _ (by omega)
      have hk1 : k = 1 := by
        rcases k with _ | _ | k
        · omega
        · rfl
        · rw [hk] at hlt
          nlinarith
      have hmodeq : addr % (BUDDY_SIZE order * 2) = BUDDY_SIZE order := by
        rw [hk, hk1, Nat.mul_one]
      have hge : BUDDY_SIZE order ≤ addr := hmodeq ▸ Nat.mod_le addr _
      simp only [get_buddy, align_down]
      rw [hmodeq]
      have hne : addr - BUDDY_SIZE order ≠ addr := by omega
      simp [hne]
  · intro a addr order ho
    obtain ⟨f, hf⟩ : ∃ f, 10 - order = f + 1 := ⟨9 - order, by omega⟩
    have hf2 : f = 10 - (order + 1) := by omega
    unfold deallocate_frame
    rw [hf, deallocate_go, if_pos ho]
    rcases hcb : clear_bit a (get_buddy addr order) order with _ | ⟨b, a2⟩
    · simp only [hcb]
    · cases b
      · simp only [hcb]
        rcases set_bit a2 addr order with _ | ⟨b2, a3⟩ <;> rfl
      · simp only [hcb, hf2]
  · intro a addr
    show deallocate_go 1 a addr 9 = _
    rw [deallocate_go]
    rw [if_neg (by omega)]
    rcases set_bit a addr 9 with _ | ⟨b2, a3⟩ <;> rfl

/-- C3 witness at concrete inputs: the buddy of 0 at order 0, the
deallocation equation at order 0 on the fully-allocated 8 KiB allocator
(whose right-hand side evaluates to setting bit 0 of the order-0 bitmap), and
the top-order equation. -/
theorem buddy_coalescing_witness :
    get_buddy 0 0 = 0 + BUDDY_SIZE 0 ∧
    deallocate_frame (empty_allocator 0 8192) 0 0 =
      some { buddies := [[1], [0], [], [], [], [], [], [], [], []],
             free := [1, 0, 0, 0, 0, 0, 0, 0, 0, 0],
             base := 0, end_addr := 8192, size := 0 } ∧
    deallocate_frame (empty_allocator 0 8192) 4096 9 =
      (set_bit (empty_allocator 0 8192) 4096 9).map Prod.snd := by
  refine ⟨(buddy_coalescing.1 0 0 (by decide) (by decide)).1 (by decide), ?_, ?_⟩
  · have h := buddy_coalescing.2.1 (empty_allocator 0 8192) 0 0 (by decide)
    exact h.trans (by decide)
  · exact buddy_coalescing.2.2.1 (empty_allocator 0 8192) 4096

/-! Normalizer lemmas and claims C7. -/

lemma align_up_mod_4096 (x : Nat) : align_up x 4096 % 4096 = 0 := by
  unfold align_up
  split
  · assumption
  · exact Nat.mul_mod_left _ _

lemma le_align_up_4096 (x : Nat) : x ≤ align_up x 4096 := by
  unfold align_up
  split <;> omega

/-- USABLE entries of a firmware map, in order. -/
def usable_filter (l : List LimineEntry) : List LimineEntry :=
  l.filter (fun e => e.entry_type == USABLE)

lemma first_usable_none {l : List LimineEntry} (h : first_usable l = none) :
    usable_filter l = [] := by
  induction l with
  | nil => rfl
  | cons e rest ih =>
    unfold first_usable at h
    unfold usable_filter
    by_cases he : e.entry_type = USABLE
    · rw [if_pos he] at h
      exact absurd h (by simp)
    · rw [if_neg he] at h
      rw [List.filter_cons_of_neg (by simpa using he)]
      exact ih h

lemma first_usable_some {l : List LimineEntry} {e : LimineEntry}
    {rest : List LimineEntry} (h : first_usable l = some (e, rest)) :
    usable_filter l = e :: usable_filter rest ∧ e.entry_type = USABLE ∧
    ∀ x, x ∈ e :: rest → x ∈ l := by
  induction l with
  | nil => exact absurd h (by simp [first_usable])
  | cons a tl ih =>
    unfold first_usable at h
    by_cases ha : a.entry_type = USABLE
    · rw [if_pos ha] at h
      obtain ⟨rfl, rfl⟩ : a = e ∧ tl = rest := by
        constructor <;> [exact congrArg Prod.fst (Option.some.inj h);
          exact congrArg Prod.snd (Option.some.inj h)]
      refine ⟨?_, ha, fun x hx => hx⟩
      unfold usable_filter
      rw [List.filter_cons_of_pos (by simpa using ha)]
    · rw [if_neg ha] at h
      obtain ⟨h1, h2, h3⟩ := ih h
      refine ⟨?_, h2, fun x hx => List.mem_cons_of_mem a (h3 x hx)⟩
      unfold usable_filter
      rw [List.filter_cons_of_neg (by simpa using ha)]
      exact h1

/-- Closed form of the normalizer, one region per USABLE entry, from any
state whose cursor is exhausted (in particular the initial one). -/
lemma region_iter_closed :
    ∀ (fuel : Nat) (entries : List LimineEntry) (cb ce : Nat), ce ≤ cb →
      region_iter_yields fuel ⟨entries, cb, ce⟩ =
        ((usable_filter entries).take fuel).map
          (fun e => ⟨align_up e.base 4096,
                     e.base + e.length - align_up e.base 4096,
                     MemoryRegionType.Free⟩) := by
  intro fuel
  induction fuel with
  | zero => intro entries cb ce _; simp [region_iter_yields]
  | succ fuel ih =>
    intro entries cb ce hc
    rw [region_iter_yields]
    unfold region_iter_next
    rw [if_pos hc]
    rcases hfu : first_usable entries with _ | ⟨e, rest⟩
    · rw [first_usable_none hfu]
      rfl
    · obtain ⟨h1, _, _⟩ := first_usable_some hfu
      rw [h1]
      simp only [List.take_succ_cons, List.map_cons]
      rw [ih rest _ _ (le_align_up_4096 _)]

/-- C7 amended.  For every firmware memory map, iterating the normalizer from
an exhausted cursor yields exactly one region per USABLE entry, namely
[align_up(base, 4096), base + length); hence every yielded region has a
4096-aligned base, comes from a single USABLE entry and (whenever aligning
the base does not overshoot that entry, which holds for any entry of at least
one page) lies entirely inside it, and non-USABLE entries contribute no
region.  The size of a region is the distance from the aligned base to the
entry end and need not be a multiple of 4096 (the original claim fails there,
see the counterexample). -/
theorem normalizer_regions (entries : List LimineEntry) (fuel : Nat) :
    region_iter_yields fuel ⟨entries, 0, 0⟩ =
      ((usable_filter entries).take fuel).map
        (fun e => ⟨align_up e.base 4096,
                   e.base + e.length - align_up e.base 4096,
                   MemoryRegionType.Free⟩) ∧
    ∀ r ∈ region_iter_yields fuel ⟨entries, 0, 0⟩,
      r.base % 4096 = 0 ∧
      ∃ e ∈ entries, e.entry_type = USABLE ∧
        r.base = align_up e.base 4096 ∧
        r.size = e.base + e.length - align_up e.base 4096 ∧
        (align_up e.base 4096 ≤ e.base + e.length →
          r.base + r.size ≤ e.base + e.length) := by
  have hc := region_iter_closed fuel entries 0 0 (Nat.le_refl 0)
  refine ⟨hc, ?_⟩
  intro r hr
  rw [hc] at hr
  obtain ⟨e, he, rfl⟩ := List.mem_map.mp hr
  have he2 : e ∈ usable_filter entries := List.mem_of_mem_take he
  obtain ⟨hmem, husable⟩ := List.mem_filter.mp he2
  refine ⟨align_up_mod_4096 _, e, hmem, by simpa using husable, rfl, rfl, ?_⟩
  intro hle
  simp only
  omega

/-- C7 witness at concrete inputs: a map with one reserved entry and one
USABLE entry with unaligned base yields exactly the clipped aligned region of
the USABLE entry. -/
theorem normalizer_regions_witness :
    region_iter_yields 3
        ⟨[⟨0, 4096, 1⟩, ⟨4100, 8188, USABLE⟩], 0, 0⟩ =
      [⟨8192, 4096, MemoryRegionType.Free⟩] ∧
    (⟨8192, 4096, MemoryRegionType.Free⟩ : MemoryRegion).base % 4096 = 0 := by
  constructor
  · exact (normalizer_regions [⟨0, 4096, 1⟩, ⟨4100, 8188, USABLE⟩] 3).1.trans
      (by decide)
  · have h1 : region_iter_yields 3
        ⟨[⟨0, 4096, 1⟩, ⟨4100, 8188, USABLE⟩], 0, 0⟩ =
          [⟨8192, 4096, MemoryRegionType.Free⟩] :=
      (normalizer_regions [⟨0, 4096, 1⟩, ⟨4100, 8188, USABLE⟩] 3).1.trans
        (by decide)
    refine ((normalizer_regions [⟨0, 4096, 1⟩, ⟨4100, 8188, USABLE⟩] 3).2
      ⟨8192, 4096, MemoryRegionType.Free⟩ ?_).1
    rw [h1]
    decide

/-- C7 counterexample.  The claim as stated requires every yielded region to
have a size that is a multiple of 4096; a single USABLE entry [0, 6000)
yields the region with base 0 and size 6000, which is not. -/
theorem normalizer_size_cex :
    region_iter_yields 2 ⟨[⟨0, 6000, USABLE⟩], 0, 0⟩ =
      [⟨0, 6000, MemoryRegionType.Free⟩] ∧ ¬ (6000 % 4096 = 0) := by decide

/-! Bootstrap allocator, claim C8. -/

/-- Default region used for list indexing in statements. -/
def default_region : MemoryRegion := ⟨0, 0, MemoryRegionType.Free⟩

lemma bootstrap_go_none (hhdm s : Nat) :
    ∀ ranges : List MemoryRegion, (∀ r ∈ ranges, r.size < s) →
      bootstrap_alloc_go hhdm s ranges = none := by
  intro ranges
  induction ranges with
  | nil => intro _; rfl
  | cons r rest ih =>
    intro h
    unfold bootstrap_alloc_go
    rw [if_neg (by have := h r (List.mem_cons_self r rest); omega)]
    rw [ih (fun x hx => h x (List.mem_cons_of_mem r hx))]
    rfl

lemma bootstrap_go_some (hhdm s : Nat) :
    ∀ (ranges : List MemoryRegion) (k : Nat), k < ranges.length →
      (∀ j, j < k → (ranges.getD j default_region).size < s) →
      s ≤ (ranges.getD k default_region).size →
      bootstrap_alloc_go hhdm s ranges =
        some ((ranges.getD k default_region).base + hhdm,
          ranges.set k
            ⟨(ranges.getD k default_region).base + s,
             (ranges.getD k default_region).size - s,
             (ranges.getD k default_region).region_type⟩) := by
  intro ranges
  induction ranges with
  | nil => intro k hk _ _; simp at hk
  | cons r rest ih =>
    intro k hk hfirst hfit
    cases k with
    | zero =>
      unfold bootstrap_alloc_go
      rw [if_pos (by simpa using hfit)]
      rfl
    | succ k2 =>
      have hr : r.size < s := by
        have := hfirst 0 (Nat.succ_pos k2)
        simpa using this
      unfold bootstrap_alloc_go
      rw [if_neg (by omega)]
      rw [ih k2 (by simpa using hk)
        (fun j hj => by simpa using hfirst (j + 1) (by omega))
        (by simpa using hfit)]
      rfl

/-- C8.  Bootstrap allocator contract: allocate(size) rounds the request up
to 4096; if some region is at least that large, the first such region wins:
the returned pointer is the HHDM translation of its old base, its base is
advanced and its size shrunk by the rounded request, and every other region
is unchanged; if no region is large enough the call panics (modelled as
none), never returning. -/
theorem bootstrap_allocate_spec (hhdm size : Nat) (ranges : List MemoryRegion) :
    ((∀ r ∈ ranges, r.size < align_up size 4096) →
      bootstrap_allocate hhdm ranges size = none) ∧
    (∀ k, k < ranges.length →
      (∀ j, j < k → (ranges.getD j default_region).size < align_up size 4096) →
      align_up size 4096 ≤ (ranges.getD k default_region).size →
      bootstrap_allocate hhdm ranges size =
        some ((ranges.getD k default_region).base + hhdm,
          ranges.set k
            ⟨(ranges.getD k default_region).base + align_up size 4096,
             (ranges.getD k default_region).size - align_up size 4096,
             (ranges.getD k default_region).region_type⟩)) := by
  constructor
  · intro h
    exact bootstrap_go_none hhdm _ ranges h
  · intro k hk hfirst hfit
    exact bootstrap_go_some hhdm _ ranges k hk hfirst hfit

/-- C8 witness at concrete inputs: a 5000-byte request rounds to 8192, skips
a 4096-byte region and carves the second region; with no fitting region the
call panics (none). -/
theorem bootstrap_allocate_spec_witness :
    bootstrap_allocate 100
        [⟨4096, 4096, MemoryRegionType.Free⟩, ⟨8192, 16384, MemoryRegionType.Free⟩]
        5000 =
      some (8292,
        [⟨4096, 4096, MemoryRegionType.Free⟩,
         ⟨16384, 8192, MemoryRegionType.Free⟩]) ∧
    bootstrap_allocate 100 [⟨0, 4096, MemoryRegionType.Free⟩] 5000 = none := by
  constructor
  · have h := (bootstrap_allocate_spec 100 5000
      [⟨4096, 4096, MemoryRegionType.Free⟩, ⟨8192, 16384, MemoryRegionType.Free⟩]).2
      1 (by decide)
      (by intro j hj; interval_cases j <;> decide) (by decide)
    exact h.trans (by decide)
  · exact (bootstrap_allocate_spec 100 5000 [⟨0, 4096, MemoryRegionType.Free⟩]).1
      (by intro r hr; rcases List.mem_singleton.mp hr with rfl; decide)

/-! Bit-level lemmas about page-table entries. -/

lemma not64_testBit (m k : Nat) :
    (not64 m).testBit k = (decide (k < 64) ^^ m.testBit k) := by
  unfold not64
  rw [Nat.testBit_xor, Nat.testBit_two_pow_sub_one]

lemma ADDR_MASK_testBit (k : Nat) :
    ADDR_MASK.testBit k = (decide (12 ≤ k) && decide (k < 52)) := by
  by_cases h : k < 64
  · have hd : ∀ j, j < 64 →
        ADDR_MASK.testBit j = (decide (12 ≤ j) && decide (j < 52)) := by decide
    exact hd k h
  · rw [Nat.testBit_lt_two_pow
      (lt_of_lt_of_le (by decide : ADDR_MASK < 2 ^ 52)
        (Nat.pow_le_pow_right (by omega) (by omega)))]
    simp [show ¬ (k < 52) by omega]

lemma FLAGS_MASK_testBit (k : Nat) :
    FLAGS_MASK.testBit k = (decide (k < 9) || decide (k = 63)) := by
  by_cases h : k < 64
  · have hd : ∀ j, j < 64 →
        FLAGS_MASK.testBit j = (decide (j < 9) || decide (j = 63)) := by decide
    exact hd k h
  · rw [Nat.testBit_lt_two_pow
      (lt_of_lt_of_le (by decide : FLAGS_MASK < 2 ^ 64)
        (Nat.pow_le_pow_right (by omega) (by omega)))]
    simp [show ¬ (k < 9) by omega, show ¬ (k = 63) by omega]

lemma testBit_false_of_mod_4096 {x : Nat} (h : x % 4096 = 0) {k : Nat}
    (hk : k < 12) : x.testBit k = false := by
  have h2 := Nat.testBit_mod_two_pow x 12 k
  rw [show (2 : Nat) ^ 12 = 4096 from rfl, h, Nat.zero_testBit] at h2
  simp only [hk, decide_True, Bool.true_and] at h2
  exact h2.symm

lemma mod_4096_of_low_bits {x : Nat} (h : ∀ k, k < 12 → x.testBit k = false) :
    x % 4096 = 0 := by
  have h2 : x % 2 ^ 12 = 0 := by
    refine Nat.eq_of_testBit_eq (fun i => ?_)
    rw [Nat.testBit_mod_two_pow, Nat.zero_testBit]
    by_cases hi : i < 12
    · simp [h i hi]
    · simp [hi]
  simpa using h2

lemma entry_addr_mod (e : Nat) : entry_addr e % 4096 = 0 := by
  refine mod_4096_of_low_bits (fun k hk => ?_)
  unfold entry_addr
  rw [Nat.testBit_and, ADDR_MASK_testBit]
  simp [show ¬ (12 ≤ k) by omega]

lemma frame_containing_of_aligned {x : Nat} (h : x % 4096 = 0) :
    frame_containing x = x := by
  unfold frame_containing align_down
  omega

lemma frame_containing_mod (x : Nat) : frame_containing x % 4096 = 0 := by
  unfold frame_containing align_down
  omega

lemma flags_bits_low {flags : Nat} (hm : flags &&& FLAGS_MASK = flags)
    {k : Nat} (hb : flags.testBit k = true) : k < 9 ∨ k = 63 := by
  have h2 : (flags &&& FLAGS_MASK).testBit k = flags.testBit k := by rw [hm]
  rw [Nat.testBit_and, FLAGS_MASK_testBit, hb] at h2
  simpa using h2

lemma f_bits_mid {f : Nat} (ha : f % 4096 = 0) (h52 : f < 2 ^ 52) {k : Nat}
    (hb : f.testBit k = true) : 12 ≤ k ∧ k < 52 := by
  constructor
  · by_contra h
    rw [testBit_false_of_mod_4096 ha (by omega)] at hb
    exact Bool.false_ne_true hb
  · by_contra h
    rw [Nat.testBit_lt_two_pow
      (lt_of_lt_of_le h52 (Nat.pow_le_pow_right (by omega) (by omega)))] at hb
    exact Bool.false_ne_true hb

lemma mapped_entry_props {f flags : Nat} (ha : f % 4096 = 0) (h52 : f < 2 ^ 52)
    (hm : flags &&& FLAGS_MASK = flags) :
    (f &&& not64 FLAGS_MASK) ||| flags = f ||| flags ∧
    entry_addr (f ||| flags) = f ∧
    (f ||| flags).testBit 0 = flags.testBit 0 ∧
    (f ||| flags).testBit 7 = flags.testBit 7 := by
  have hf0 : f.testBit 0 = false := testBit_false_of_mod_4096 ha (by omega)
  have hf7 : f.testBit 7 = false := testBit_false_of_mod_4096 ha (by omega)
  refine ⟨?_, ?_, ?_, ?_⟩
  · refine Nat.eq_of_testBit_eq (fun k => ?_)
    rw [Nat.testBit_or, Nat.testBit_or, Nat.testBit_and, not64_testBit,
      FLAGS_MASK_testBit]
    rcases hfk : f.testBit k with _ | _
    · simp
    · obtain ⟨hk1, hk2⟩ := f_bits_mid ha h52 hfk
      simp [show k < 64 by omega, show ¬ (k < 9) by omega,
        show k ≠ 63 by omega]
  · refine Nat.eq_of_testBit_eq (fun k => ?_)
    unfold entry_addr
    rw [Nat.testBit_and, Nat.testBit_or, ADDR_MASK_testBit]
    rcases hfk : f.testBit k with _ | _
    · rcases hgk : flags.testBit k with _ | _
      · simp
      · rcases flags_bits_low hm hgk with h9 | h63
        · simp [show ¬ (12 ≤ k) by omega]
        · simp [show ¬ (k < 52) by omega]
    · obtain ⟨hk1, hk2⟩ := f_bits_mid ha h52 hfk
      simp [hk1, hk2]
  · rw [Nat.testBit_or, hf0, Bool.false_or]
  · rw [Nat.testBit_or, hf7, Bool.false_or]

lemma intermediate_entry_props (tf : Nat) (htf : tf % 4096 = 0) :
    ((tf &&& not64 FLAGS_MASK) ||| 7).testBit 0 = true ∧
    ((tf &&& not64 FLAGS_MASK) ||| 7).testBit 7 = false := by
  have hf0 : tf.testBit 0 = false := testBit_false_of_mod_4096 htf (by omega)
  have hf7 : tf.testBit 7 = false := testBit_false_of_mod_4096 htf (by omega)
  constructor
  · rw [Nat.testBit_or, Nat.testBit_and, hf0]
    decide
  · rw [Nat.testBit_or, Nat.testBit_and, hf7]
    decide

lemma entry_frame_present {e : Nat} (hp : e.testBit 0 = true)
    (hh : e.testBit 7 = false) :
    entry_frame e = Except.ok (frame_containing (entry_addr e)) := by
  unfold entry_frame
  rw [hp, hh]
  rfl

lemma entry_frame_zero : entry_frame 0 = Except.error FrameErr.FrameNotPresent := rfl

lemma intermediate_set_frame (fr : Nat) :
    entry_set_frame 0 (frame_containing fr) 7 =
      some ((frame_containing fr &&& not64 FLAGS_MASK) ||| 7) := by
  unfold entry_set_frame entry_set_addr entry_set_flags
  rw [if_neg (by decide), if_pos (frame_containing_mod fr)]
  rw [Nat.zero_and, Nat.zero_or]

lemma leaf_set_frame {f flags : Nat} (ha : f % 4096 = 0) (h52 : f < 2 ^ 52)
    (hm : flags &&& FLAGS_MASK = flags) (h7 : flags.testBit 7 = false) :
    entry_set_frame 0 f flags = some (f ||| flags) := by
  unfold entry_set_frame entry_set_addr entry_set_flags
  rw [if_neg (by rw [h7]; exact Bool.false_ne_true), if_pos ha]
  rw [Nat.zero_and, Nat.zero_or]
  exact congrArg some (mapped_entry_props ha h52 hm).1

/-! Memory read lemmas. -/

lemma Memory.write_self (m : Memory) (t i v : Nat) : (m.write t i v) t i = v := by
  simp [Memory.write]

lemma Memory.write_ne (m : Memory) (t i v t0 i0 : Nat)
    (h : ¬ (t0 = t ∧ i0 = i)) : (m.write t i v) t0 i0 = m t0 i0 := by
  simp only [Memory.write]
  rw [if_neg h]

lemma Memory.zero_table_ne (m : Memory) (t t0 i0 : Nat) (h : t0 ≠ t) :
    (m.zero_table t) t0 i0 = m t0 i0 := by
  simp only [Memory.zero_table]
  rw [if_neg h]

/-- Simulation lemma for the intermediate walk of map_page: when the walk
succeeds, the visited tables are pairwise distinct (hypothesis), the
pre-existing entries on the path are well formed (hypothesis), and then in
the resulting memory the path is intact: any memoryW agreeing with the
result on the non-final visited tables makes translate_walk cross the same
indices from the start table to the final table, and walk_chain likewise;
moreover every table outside the visited set is untouched. -/
lemma map_walk_sim :
    ∀ (idxs : List Nat) (m : Memory) (t : Nat) (alloc : List Nat)
      (m2 : Memory) (t2 : Nat) (al2 : List Nat) (vis : List Nat),
      map_walk m t alloc idxs = MapWalkOut.ok m2 t2 al2 vis →
      walk_wf m t alloc idxs →
      vis.Nodup →
      vis.head? = some t ∧
      vis.getLast? = some t2 ∧
      vis.length = idxs.length + 1 ∧
      (∀ tx ix, tx ∉ vis → m2 tx ix = m tx ix) ∧
      (∀ (v : Nat) (lvls : List Nat) (rest2 : List (Nat × Nat)) (W : Memory),
         lvls.length = idxs.length →
         (∀ tx, tx ∈ vis.dropLast → ∀ ix, W tx ix = m2 tx ix) →
         translate_walk W v (lvls.zip idxs ++ rest2) t =
           translate_walk W v rest2 t2) ∧
      (∀ W : Memory,
         (∀ tx, tx ∈ vis.dropLast → ∀ ix, W tx ix = m2 tx ix) →
         walk_chain W t idxs = t2) := by
  intro idxs
  induction idxs with
  | nil =>
    intro m t alloc m2 t2 al2 vis h hwf hnd
    simp only [map_walk] at h
    injection h with h1 h2 h3 h4
    subst h1
    subst h2
    subst h3
    subst h4
    refine ⟨rfl, rfl, rfl, fun tx ix _ => rfl, ?_, ?_⟩
    · intro v lvls rest2 W hlen _
      have hl : lvls = [] := List.length_eq_zero.mp hlen
      subst hl
      rfl
    · intro W _
      rfl
  | cons i rest ih =>
    intro m t alloc m2 t2 al2 vis h hwf hnd
    simp only [map_walk] at h
    simp only [walk_wf] at hwf
    by_cases he : m t i = 0
    · rw [if_pos he] at h hwf
      rcases alloc with _ | ⟨fr, alloc2⟩
      · exact MapWalkOut.noConfusion h
      · rw [he] at h hwf
        simp only [intermediate_set_frame] at h hwf
        rcases hrec : map_walk
            (((m.write t i ((frame_containing fr &&& not64 FLAGS_MASK) ||| 7)).zero_table
                (entry_addr ((frame_containing fr &&& not64 FLAGS_MASK) ||| 7))))
            (entry_addr ((frame_containing fr &&& not64 FLAGS_MASK) ||| 7))
            alloc2 rest with _ | ⟨mf, af⟩ | ⟨mr, tr, ar, visr⟩
        · rw [hrec] at h
          exact MapWalkOut.noConfusion h
        · rw [hrec] at h
          exact MapWalkOut.noConfusion h
        · rw [hrec] at h
          injection h with h1 h2 h3 h4
          subst h1
          subst h2
          subst h3
          subst h4
          obtain ⟨hnotin, hnd2⟩ := List.nodup_cons.mp hnd
          obtain ⟨ihh, ihl, ihlen, ihpres, ihtr, ihch⟩ :=
            ih _ _ _ _ _ _ _ hrec hwf hnd2
          rcases visr with _ | ⟨vh, vt⟩
          · simp at ihh
          · have hvh : vh = entry_addr ((frame_containing fr &&& not64 FLAGS_MASK) ||| 7) := by
              simpa using ihh
            subst hvh
            have hWt : ∀ W : Memory,
                (∀ tx, tx ∈ (t :: entry_addr ((frame_containing fr &&& not64 FLAGS_MASK) ||| 7) :: vt).dropLast →
                   ∀ ix, W tx ix = mr tx ix) →
                W t i = (frame_containing fr &&& not64 FLAGS_MASK) ||| 7 := by
              intro W hag
              have h1 : t ∈ (t :: entry_addr ((frame_containing fr &&& not64 FLAGS_MASK) ||| 7) :: vt).dropLast := by
                rw [List.dropLast_cons₂]
                exact List.mem_cons_self _ _
              rw [hag t h1 i, ihpres t i hnotin,
                Memory.zero_table_ne _ _ _ _
                  (fun hh => hnotin (by rw [hh]; exact List.mem_cons_self _ _))]
              exact Memory.write_self _ _ _ _
            refine ⟨rfl, ?_, ?_, ?_, ?_, ?_⟩
            · rw [List.getLast?_cons_cons]
              exact ihl
            · simp only [List.length_cons] at ihlen ⊢
              omega
            · intro tx ix hx
              have h1 : tx ∉ (entry_addr ((frame_containing fr &&& not64 FLAGS_MASK) ||| 7) :: vt) :=
                fun hh => hx (List.mem_cons_of_mem _ hh)
              have h2 : tx ≠ t := fun hh => hx (hh ▸ List.mem_cons_self _ _)
              rw [ihpres tx ix h1,
                Memory.zero_table_ne _ _ _ _
                  (fun hh => h1 (by rw [hh]; exact List.mem_cons_self _ _))]
              exact Memory.write_ne _ _ _ _ _ _ (fun hh => h2 hh.1)
            · intro v lvls rest2 W hlen hag
              rcases lvls with _ | ⟨l, lvls2⟩
              · simp at hlen
              · have hprops := intermediate_entry_props (frame_containing fr)
                  (frame_containing_mod fr)
                simp only [List.zip_cons_cons, List.cons_append, translate_walk,
                  hWt W hag, entry_frame_present hprops.1 hprops.2]
                rw [frame_containing_of_aligned (entry_addr_mod _)]
                refine ihtr v lvls2 rest2 W (by simpa using hlen) ?_
                intro tx hx ix
                refine hag tx ?_ ix
                rw [List.dropLast_cons₂]
                exact List.mem_cons_of_mem _ hx
            · intro W hag
              simp only [walk_chain, hWt W hag]
              refine ihch W ?_
              intro tx hx ix
              refine hag tx ?_ ix
              rw [List.dropLast_cons₂]
              exact List.mem_cons_of_mem _ hx
    · rw [if_neg he] at h hwf
      obtain ⟨hp, hh7, hwf2⟩ := hwf
      rcases hrec : map_walk m (entry_addr (m t i)) alloc rest
          with _ | ⟨mf, af⟩ | ⟨mr, tr, ar, visr⟩
      · rw [hrec] at h
        exact MapWalkOut.noConfusion h
      · rw [hrec] at h
        exact MapWalkOut.noConfusion h
      · rw [hrec] at h
        injection h with h1 h2 h3 h4
        subst h1
        subst h2
        subst h3
        subst h4
        obtain ⟨hnotin, hnd2⟩ := List.nodup_cons.mp hnd
        obtain ⟨ihh, ihl, ihlen, ihpres, ihtr, ihch⟩ :=
          ih _ _ _ _ _ _ _ hrec hwf2 hnd2
        rcases visr with _ | ⟨vh, vt⟩
        · simp at ihh
        · have hvh : vh = entry_addr (m t i) := by simpa using ihh
          subst hvh
          have hWt : ∀ W : Memory,
              (∀ tx, tx ∈ (t :: entry_addr (m t i) :: vt).dropLast →
                 ∀ ix, W tx ix = mr tx ix) →
              W t i = m t i := by
            intro W hag
            have h1 : t ∈ (t :: entry_addr (m t i) :: vt).dropLast := by
              rw [List.dropLast_cons₂]
              exact List.mem_cons_self _ _
            rw [hag t h1 i]
            exact ihpres t i hnotin
          refine ⟨rfl, ?_, ?_, ?_, ?_, ?_⟩
          · rw [List.getLast?_cons_cons]
            exact ihl
          · simp only [List.length_cons] at ihlen ⊢
            omega
          · intro tx ix hx
            have h1 : tx ∉ (entry_addr (m t i) :: vt) :=
              fun hh => hx (List.mem_cons_of_mem _ hh)
            exact ihpres tx ix h1
          · intro v lvls rest2 W hlen hag
            rcases lvls with _ | ⟨l, lvls2⟩
            · simp at hlen
            · simp only [List.zip_cons_cons, List.cons_append, translate_walk,
                hWt W hag, entry_frame_present hp hh7]
              rw [frame_containing_of_aligned (entry_addr_mod _)]
              refine ihtr v lvls2 rest2 W (by simpa using hlen) ?_
              intro tx hx ix
              refine hag tx ?_ ix
              rw [List.dropLast_cons₂]
              exact List.mem_cons_of_mem _ hx
          · intro W hag
            simp only [walk_chain, hWt W hag]
            refine ihch W ?_
            intro tx hx ix
            refine hag tx ?_ ix
            rw [List.dropLast_cons₂]
            exact List.mem_cons_of_mem _ hx

/-- C4.  Page-table map/unmap round trip.  Hypotheses: the root is
page-aligned; the mapped frame start is page-aligned and below 2^52 (it fits
the address field of an entry); the flags carry only flag bits (the bitflags
type invariant); every pre-existing entry on the walk is PRESENT and not
HUGE (walk_wf, the shape map_page itself creates); and the four tables the
walk visits are pairwise distinct (map_visited Nodup — the freshness that
the FrameAllocator safety contract provides).  Then a successful
map_page(v, f, flags) returns the frame f, translate_addr(v) afterwards
returns the physical start of f plus the in-page offset of v, and after a
subsequent successful unmap_page(v), translate_addr(v) returns None. -/
theorem map_translate_roundtrip
    (m : Memory) (pml4 v f flags : Nat) (alloc : List Nat) (fr : Nat)
    (m1 : Memory) (al1 : List Nat)
    (hroot : pml4 % 4096 = 0)
    (hf : f % 4096 = 0) (hf52 : f < 2 ^ 52)
    (hflags : flags &&& FLAGS_MASK = flags)
    (hwf : walk_wf m pml4 alloc [p4_index v, p3_index v, p2_index v])
    (hnodup : (map_visited m pml4 v alloc).Nodup)
    (hmap : map_page m pml4 v f flags alloc = MapOutcome.ok fr m1 al1) :
    fr = f ∧
    translate_addr m1 pml4 v = TranslateResult.mapped (f + page_index v) ∧
    (∀ fr2 m3, unmap_page m1 pml4 v = UnmapOutcome.ok fr2 m3 →
       translate_addr m3 pml4 v = TranslateResult.unmapped) := by
  unfold map_page at hmap
  rcases hw : map_walk m pml4 alloc [p4_index v, p3_index v, p2_index v] with
    _ | ⟨mf, af⟩ | ⟨mw, t1, alw, vis⟩
  · rw [hw] at hmap
    exact MapOutcome.noConfusion hmap
  · rw [hw] at hmap
    exact MapOutcome.noConfusion hmap
  · simp only [hw] at hmap
    unfold map_visited at hnodup
    rw [hw] at hnodup
    by_cases he : mw t1 (p1_index v) = 0
    · by_cases hh7 : flags.testBit 7 = true
      · rw [he, if_pos rfl] at hmap
        unfold entry_set_frame at hmap
        rw [if_pos hh7] at hmap
        exact MapOutcome.noConfusion hmap
      · have hh7f : flags.testBit 7 = false := by
          revert hh7
          cases flags.testBit 7 <;> simp
        rw [he, if_pos rfl] at hmap
        simp only [leaf_set_frame hf hf52 hflags hh7f] at hmap
        obtain ⟨hprops1, hprops2, hprops3, hprops4⟩ :=
          mapped_entry_props hf hf52 hflags
        by_cases hp0 : flags.testBit 0 = true
        · have hef : entry_frame (f ||| flags) = Except.ok f := by
            rw [entry_frame_present (by rw [hprops3]; exact hp0)
              (by rw [hprops4]; exact hh7f), hprops2,
              frame_containing_of_aligned hf]
          simp only [hef] at hmap
          injection hmap with hfr hm1 hal
          subst hfr
          subst hm1
          subst hal
          obtain ⟨hsh, hsl, hslen, hspres, hstr, hsch⟩ :=
            map_walk_sim _ _ _ _ _ _ _ _ hw hwf hnodup
          have hne_last : ∀ tx, tx ∈ vis.dropLast → tx ≠ t1 := by
            intro tx hx
            have heq := List.dropLast_append_getLast? t1 (Option.mem_def.mpr hsl)
            have hnd2 := hnodup
            rw [← heq] at hnd2
            obtain ⟨_, _, hdisj⟩ := List.nodup_append.mp hnd2
            intro hteq
            exact hdisj hx (by rw [hteq]; exact List.mem_singleton_self _)
          have hagree : ∀ tx, tx ∈ vis.dropLast → ∀ ix,
              (mw.write t1 (p1_index v) (f ||| flags)) tx ix = mw tx ix := by
            intro tx hx ix
            exact Memory.write_ne _ _ _ _ _ _ (fun hh => hne_last tx hx hh.1)
          have hform : [(3, p4_index v), (2, p3_index v), (1, p2_index v),
              (0, p1_index v)] =
              ([3, 2, 1].zip [p4_index v, p3_index v, p2_index v]) ++
                [(0, p1_index v)] := rfl
          refine ⟨rfl, ?_, ?_⟩
          · unfold translate_addr
            rw [frame_containing_of_aligned hroot, hform,
              hstr v [3, 2, 1] [(0, p1_index v)] _ rfl hagree]
            simp only [translate_walk, Memory.write_self,
              entry_frame_present (by rw [hprops3]; exact hp0)
                (by rw [hprops4]; exact hh7f)]
            rw [hprops2, frame_containing_of_aligned hf]
          · intro fr2 m3 hu
            unfold unmap_page at hu
            rw [hsch _ hagree] at hu
            simp only [Memory.write_self,
              entry_frame_present (by rw [hprops3]; exact hp0)
                (by rw [hprops4]; exact hh7f)] at hu
            injection hu with hfr2 hm3
            subst hm3
            have hagree3 : ∀ tx, tx ∈ vis.dropLast → ∀ ix,
                ((mw.write t1 (p1_index v) (f ||| flags)).write t1
                  (p1_index v) 0) tx ix = mw tx ix := by
              intro tx hx ix
              rw [Memory.write_ne _ _ _ _ _ _ (fun hh => hne_last tx hx hh.1)]
              exact Memory.write_ne _ _ _ _ _ _ (fun hh => hne_last tx hx hh.1)
            unfold translate_addr
            rw [frame_containing_of_aligned hroot, hform,
              hstr v [3, 2, 1] [(0, p1_index v)] _ rfl hagree3]
            simp only [translate_walk, Memory.write_self, entry_frame_zero]
        · have hp0f : flags.testBit 0 = false := by
            revert hp0
            cases flags.testBit 0 <;> simp
          have hef : entry_frame (f ||| flags) =
              Except.error FrameErr.FrameNotPresent := by
            unfold entry_frame
            rw [hprops3, hp0f]
            rfl
          simp only [hef] at hmap
          exact MapOutcome.noConfusion hmap
    · rw [if_neg he] at hmap
      rcases hef : entry_frame (mw t1 (p1_index v)) with e0 | fr0
      · simp only [hef] at hmap
        exact MapOutcome.noConfusion hmap
      · simp only [hef] at hmap
        exact MapOutcome.noConfusion hmap

/-- All-zero physical memory. -/
def mem_zero : Memory := fun _ _ => 0

/-- Memory after map_page(mem_zero, root 0, page 0, frame 0x4000, PRESENT
| WRITEABLE) with fresh intermediate tables 0x1000, 0x2000, 0x3000. -/
def mem_mapped : Memory :=
  ((((((mem_zero.write 0 0 4103).zero_table 4096).write 4096 0
      8199).zero_table 8192).write 8192 0 12295).zero_table 12288).write
    12288 0 16387

/-- C4 witness at concrete inputs. -/
theorem map_translate_roundtrip_witness :
    translate_addr mem_mapped 0 0 = TranslateResult.mapped 16384 ∧
    translate_addr (mem_mapped.write 12288 0 0) 0 0 =
      TranslateResult.unmapped := by
  have h := map_translate_roundtrip mem_zero 0 0 16384 3 [4096, 8192, 12288]
    16384 mem_mapped [] (by decide) (by decide) (by decide) (by decide)
    trivial (by decide) rfl
  exact ⟨h.2.1, h.2.2 16384 (mem_mapped.write 12288 0 0) rfl⟩

/-- C5 amended.  Double-map rejection holds for a p1 entry that is non-zero
and PRESENT and not HUGE (every entry a successful PRESENT map_page writes is
of that shape): the second map_page returns PageAlreadyMapped carrying the
currently mapped frame and returns before modifying anything — the resulting
memory is exactly the memory the intermediate walk produced, so the p1 entry
and the existing translation are unchanged. -/
theorem double_map_rejected
    (m : Memory) (pml4 v f flags : Nat) (alloc : List Nat)
    (mw : Memory) (t1 : Nat) (alw : List Nat) (vis : List Nat)
    (hw : map_walk m pml4 alloc [p4_index v, p3_index v, p2_index v] =
      MapWalkOut.ok mw t1 alw vis)
    (hne : mw t1 (p1_index v) ≠ 0)
    (hp : (mw t1 (p1_index v)).testBit 0 = true)
    (hh : (mw t1 (p1_index v)).testBit 7 = false) :
    map_page m pml4 v f flags alloc =
      MapOutcome.error
        (MapErr.PageAlreadyMapped
          (frame_containing (entry_addr (mw t1 (p1_index v))))) mw alw := by
  unfold map_page
  simp only [hw]
  rw [if_neg hne, entry_frame_present hp hh]

/-- C5 counterexample.  The claim as stated only requires the p1 entry to be
non-zero.  In the page-table tree mem_c5 the p1 entry of page 0 is 2
(WRITEABLE but not PRESENT, hence non-zero): map_page panics on
entry.frame().unwrap() (modelled as fatal) instead of returning
Err(PageAlreadyMapped). -/
def mem_c5 : Memory := fun t i =>
  if t = 0 ∧ i = 0 then 4097
  else if t = 4096 ∧ i = 0 then 8193
  else if t = 8192 ∧ i = 0 then 12289
  else if t = 12288 ∧ i = 0 then 2
  else 0

theorem double_map_nonpresent_cex :
    map_page mem_c5 0 0 16384 3 [] = MapOutcome.fatal := rfl

/-- C5 witness at concrete inputs: remapping the already-mapped page 0 of
mem_mapped (entry 16387 = frame 0x4000 | PRESENT | WRITEABLE) returns
PageAlreadyMapped with the mapped frame 0x4000 and the unchanged memory. -/
theorem double_map_rejected_witness :
    map_page mem_mapped 0 0 4096 3 [] =
      MapOutcome.error (MapErr.PageAlreadyMapped 16384) mem_mapped [] := by
  have h := double_map_rejected mem_mapped 0 0 4096 3 [] mem_mapped 12288 []
    [0, 4096, 8192, 12288] rfl (by decide) (by decide) (by decide)
  exact h

/-! Address spaces, claim C9. -/

/-- Content of the L4 table AddressSpace::new builds in frame f: entries
0..256 zeroed, entries 256..512 copied from the table of the active cr3
(reads of the source table taken after the zero loop, which matters only if
f aliases cr3). -/
def as_new_mem (m : Memory) (cr3 f : Nat) : Memory := fun t i =>
  if t = f ∧ 256 ≤ i ∧ i < 512 then
    (if cr3 = f ∧ i < 256 then 0 else m cr3 i)
  else (if t = f ∧ i < 256 then 0 else m t i)

lemma address_space_new_eq (m : Memory) (cr3 fr : Nat) :
    address_space_new m cr3 (some fr) =
      some (frame_containing fr, as_new_mem m cr3 (frame_containing fr)) := rfl

lemma as_new_read_low (m : Memory) (cr3 f i : Nat) (hi : i < 256) :
    as_new_mem m cr3 f f i = 0 := by
  unfold as_new_mem
  rw [if_neg (by omega), if_pos ⟨rfl, hi⟩]

lemma as_new_read_high (m : Memory) (cr3 f i : Nat) (hne : cr3 ≠ f)
    (hi1 : 256 ≤ i) (hi2 : i < 512) : as_new_mem m cr3 f f i = m cr3 i := by
  unfold as_new_mem
  rw [if_pos ⟨rfl, hi1, hi2⟩, if_neg (fun hh => hne hh.1)]

lemma as_new_read_other (m : Memory) (cr3 f t i : Nat) (ht : t ≠ f) :
    as_new_mem m cr3 f t i = m t i := by
  unfold as_new_mem
  rw [if_neg (fun hh => ht hh.1), if_neg (fun hh => ht hh.1)]

/-- C9.  Address-space isolation: creating two address spaces from the same
active root, with fresh frames (distinct from each other and from the active
root — the FrameAllocator safety contract), gives distinct L4 frames; both
new tables have zero entries on the user half (hence no translation for any
user-half address) and entries identical to the active root on the kernel
half (hence identical translations for every kernel-half address). -/
theorem address_space_isolation
    (m : Memory) (cr3 a1 a2 : Nat)
    (hcr3 : cr3 % 4096 = 0)
    (h1 : frame_containing a1 ≠ cr3) (h2 : frame_containing a2 ≠ cr3)
    (h12 : frame_containing a1 ≠ frame_containing a2)
    (r1 : Nat) (mA : Memory) (r2 : Nat) (mB : Memory)
    (hA : address_space_new m cr3 (some a1) = some (r1, mA))
    (hB : address_space_new mA cr3 (some a2) = some (r2, mB)) :
    r1 ≠ r2 ∧ r1 ≠ cr3 ∧ r2 ≠ cr3 ∧
    (∀ i, i < 256 → mB r1 i = 0 ∧ mB r2 i = 0) ∧
    (∀ i, 256 ≤ i → i < 512 →
       mB r1 i = m cr3 i ∧ mB r2 i = m cr3 i ∧ mB cr3 i = m cr3 i) ∧
    (∀ v, 256 ≤ p4_index v →
       translate_addr mB r1 v = translate_addr mB cr3 v ∧
       translate_addr mB r2 v = translate_addr mB cr3 v) ∧
    (∀ v, p4_index v < 256 →
       translate_addr mB r1 v = TranslateResult.unmapped ∧
       translate_addr mB r2 v = TranslateResult.unmapped) := by
  rw [address_space_new_eq] at hA hB
  injection hA with hA2
  injection hA2 with hA3 hA4
  injection hB with hB2
  injection hB2 with hB3 hB4
  subst hA3
  subst hA4
  subst hB3
  subst hB4
  have hr1a : frame_containing (frame_containing a1) = frame_containing a1 :=
    frame_containing_of_aligned (frame_containing_mod a1)
  have hr2a : frame_containing (frame_containing a2) = frame_containing a2 :=
    frame_containing_of_aligned (frame_containing_mod a2)
  set f1 := frame_containing a1 with hf1
  set f2 := frame_containing a2 with hf2
  set mAv := as_new_mem m cr3 f1 with hmA
  set mBv := as_new_mem mAv cr3 f2 with hmB
  have hlow : ∀ i, i < 256 → mBv f1 i = 0 ∧ mBv f2 i = 0 := by
    intro i hi
    constructor
    · rw [hmB, as_new_read_other _ _ _ _ _ h12]
      exact as_new_read_low _ _ _ _ hi
    · rw [hmB]
      exact as_new_read_low _ _ _ _ hi
  have hhigh : ∀ i, 256 ≤ i → i < 512 →
      mBv f1 i = m cr3 i ∧ mBv f2 i = m cr3 i ∧ mBv cr3 i = m cr3 i := by
    intro i hi1 hi2
    refine ⟨?_, ?_, ?_⟩
    · rw [hmB, as_new_read_other _ _ _ _ _ h12, hmA]
      exact as_new_read_high _ _ _ _ (Ne.symm h1) hi1 hi2
    · rw [hmB, as_new_read_high _ _ _ _ (Ne.symm h2) hi1 hi2, hmA]
      exact as_new_read_other _ _ _ _ _ (Ne.symm h1)
    · rw [hmB, as_new_read_other _ _ _ _ _ (Ne.symm h2), hmA]
      exact as_new_read_other _ _ _ _ _ (Ne.symm h1)
  have hp4lt : ∀ v : Nat, p4_index v < 512 := by
    intro v
    exact Nat.mod_lt _ (by omega)
  refine ⟨h12, h1, h2, hlow, hhigh, ?_, ?_⟩
  · intro v hv
    have he1 : mBv f1 (p4_index v) = mBv cr3 (p4_index v) := by
      rw [(hhigh _ hv (hp4lt v)).1, (hhigh _ hv (hp4lt v)).2.2]
    have he2 : mBv f2 (p4_index v) = mBv cr3 (p4_index v) := by
      rw [(hhigh _ hv (hp4lt v)).2.1, (hhigh _ hv (hp4lt v)).2.2]
    constructor
    · unfold translate_addr
      rw [hr1a, frame_containing_of_aligned hcr3]
      simp only [translate_walk, he1]
    · unfold translate_addr
      rw [hr2a, frame_containing_of_aligned hcr3]
      simp only [translate_walk, he2]
  · intro v hv
    constructor
    · unfold translate_addr
      rw [hr1a]
      simp only [translate_walk, (hlow _ hv).1, entry_frame_zero]
    · unfold translate_addr
      rw [hr2a]
      simp only [translate_walk, (hlow _ hv).2, entry_frame_zero]

/-- C9 witness at concrete inputs. -/
theorem address_space_isolation_witness :
    (match address_space_new mem_zero 0 (some 4096) with
     | some (r1, mA) =>
       (match address_space_new mA 0 (some 8192) with
        | some (r2, mB) =>
            r1 ≠ r2 ∧ translate_addr mB r1 0 = TranslateResult.unmapped
        | none => False)
     | none => False) := by
  have h := address_space_isolation mem_zero 0 4096 8192 (by decide)
    (by decide) (by decide) (by decide) _ _ _ _ rfl rfl
  exact ⟨h.1, (h.2.2.2.2.2.2 0 (by decide)).1⟩

end Molecule
